import Mathlib

/-! Verification development for the persona token library (email verification
and password reset tokens).

The embedding works at two levels, mirroring the source:

1. A byte level model of the opaque token codec and of the token provider
   verify and create operations. JS strings are modelled as lists of byte
   values (Nat below 256). The external base64 helper from @poppinss/utils
   (an external collaborator of the repository, not part of its sources) is
   modelled as the canonical base64url codec, matching the spec wording and
   the concrete decode vectors in tests/email_verification/token.spec.ts.
   The SHA-256 hash from node:crypto is kept abstract as a function
   parameter, and clock reads are explicit Nat timestamps.

2. A record level model of the Lucid mixins: user rows with email,
   unverifiedEmail and password columns, token rows in a list backed store,
   the throttled token creation, the email change reconciliation from
   tests/helpers.ts, verifyEmail and resetPassword.
-/

namespace Persona

/-! Section: base64url codec (external @poppinss/utils helper, modelled from its
contract: canonical base64url without padding, strict decoding) -/

/-- Maps a sextet (0..63) to its base64url character code. -/
def b64char (s : Nat) : Nat :=
  if s < 26 then s + 65
  else if s < 52 then s + 71
  else if s < 62 then s - 4
  else if s = 62 then 45
  else 95

/-- Inverse alphabet lookup: character code to sextet, none when the
character is not in the base64url alphabet. -/
def b64index (c : Nat) : Option Nat :=
  if 65 ≤ c ∧ c ≤ 90 then some (c - 65)
  else if 97 ≤ c ∧ c ≤ 122 then some (c - 71)
  else if 48 ≤ c ∧ c ≤ 57 then some (c + 4)
  else if c = 45 then some 62
  else if c = 95 then some 63
  else none

/-- base64url encoding of a byte list, without padding. -/
def encodeB64 : List Nat → List Nat
  | [] => []
  | [a] => [b64char (a / 4), b64char (a % 4 * 16)]
  | [a, b] => [b64char (a / 4), b64char (a % 4 * 16 + b / 16), b64char (b % 16 * 4)]
  | a :: b :: c :: rest =>
      b64char (a / 4) :: b64char (a % 4 * 16 + b / 16) ::
        b64char (b % 16 * 4 + c / 64) :: b64char (c % 64) :: encodeB64 rest

/-- Maps every character of a candidate base64url string to its sextet;
none when some character is outside the alphabet. -/
def b64indices : List Nat → Option (List Nat)
  | [] => some []
  | c :: rest =>
      match b64index c, b64indices rest with
      | some s, some ss => some (s :: ss)
      | _, _ => none

/-- Packs a list of sextets back into bytes; none when the length or the
trailing bits are not those of a canonical base64url encoding. -/
def regroup : List Nat → Option (List Nat)
  | [] => some []
  | [_] => none
  | [a, b] => if b % 16 = 0 then some [a * 4 + b / 16] else none
  | [a, b, c] =>
      if c % 4 = 0 then some [a * 4 + b / 16, b % 16 * 16 + c / 4] else none
  | a :: b :: c :: d :: rest =>
      match regroup rest with
      | some bs => some ((a * 4 + b / 16) :: (b % 16 * 16 + c / 4) :: (c % 4 * 64 + d) :: bs)
      | none => none

/-- Strict base64url decoding: none when a character is outside the
alphabet or the shape is not canonical. -/
def decodeB64 (cs : List Nat) : Option (List Nat) :=
  (b64indices cs).bind regroup

/-! Section: the opaque token wire format (src/email_verification/token.ts) -/

/-- A JS value handed to decode: either a string (list of byte values) or a
value of any other type, which the source rejects with a typeof check. -/
inductive JsInput where
  | nonString
  | str (chars : List Nat)
deriving DecidableEq

/-- Model of the JS value.split(".") call: splits on character 46, always
returning at least one (possibly empty) component. -/
def splitDot : List Nat → List (List Nat)
  | [] => [[]]
  | c :: rest =>
      if c = 46 then [] :: splitDot rest
      else
        match splitDot rest with
        | [] => [[c]]
        | p :: ps => (c :: p) :: ps

/-- Model of the JS array.join(".") call. -/
def joinDot : List (List Nat) → List Nat
  | [] => []
  | [p] => p
  | p :: ps => p ++ 46 :: joinDot ps

/-- The transient decoded token: identifier and secret byte strings. -/
structure DecodedToken where
  identifier : List Nat
  secret : List Nat
deriving DecidableEq

/-- EmailVerificationToken.decode from src/email_verification/token.ts:
rejects non strings and the empty string, splits on the first dot keeping
everything after it as the encoded secret, and base64url decodes both
parts. The JS falsy checks on the two decoded parts reject both a failed
decoding and a decoding to the empty string. -/
def decode (v : JsInput) : Option DecodedToken :=
  match v with
  | JsInput.nonString => none
  | JsInput.str cs =>
      if cs = [] then none
      else
        match splitDot cs with
        | [] => none
        | identifier :: tokenValue =>
            if identifier = [] ∨ tokenValue = [] then none
            else
              match decodeB64 identifier, decodeB64 (joinDot tokenValue) with
              | some di, some ds =>
                  if di = [] ∨ ds = [] then none else some ⟨di, ds⟩
              | _, _ => none

/-- The public value computed by the EmailVerificationToken constructor:
base64url of the identifier, a dot, base64url of the secret. -/
def encodePublicValue (identifier secret : List Nat) : List Nat :=
  encodeB64 identifier ++ 46 :: encodeB64 secret

/-! Section: token rows and the provider (src/email_verification/provider.ts) -/

/-- A persisted token row. The id is kept in its decoded string form (the
database coerces between the numeric key and its textual form at the query
boundary); timestamps are Nat instants. -/
structure EmailTokenRow where
  id : List Nat
  tokenable_id : Nat
  email : List Nat
  hash : List Nat
  created_at : Nat
  expires_at : Nat
deriving DecidableEq

/-- The provider verify lookup: first row whose id matches the decoded
identifier, with no owner scoping. -/
def findRowById (rows : List EmailTokenRow) (idv : List Nat) : Option EmailTokenRow :=
  rows.find? (fun r => r.id == idv)

/-- EmailVerificationToken.isExpired: expiresAt < now (strict). -/
def tokenIsExpired (row : EmailTokenRow) (now : Nat) : Bool :=
  decide (row.expires_at < now)

/-- EmailVerificationToken.verify: recompute the hash of the candidate
secret and compare with the stored digest (safeEqual is equality with
constant time evaluation, a non functional property). The hash function
itself (SHA-256 from node:crypto) is an external collaborator kept
abstract. -/
def tokenHashVerify (hashFn : List Nat → List Nat) (row : EmailTokenRow)
    (secret : List Nat) : Bool :=
  hashFn secret == row.hash

/-- EmailTokensProvider.verify: decode, look up by identifier, then reject
unless the hash matches and the token is not expired; every failure is the
same null result. -/
def providerVerify (hashFn : List Nat → List Nat) (rows : List EmailTokenRow)
    (now : Nat) (v : JsInput) : Option EmailTokenRow :=
  match decode v with
  | none => none
  | some d =>
      match findRowById rows d.identifier with
      | none => none
      | some row =>
          if !(tokenHashVerify hashFn row d.secret) || tokenIsExpired row now then none
          else some row

/-- EmailVerificationToken.createTransientToken: reads the clock (t1) and
computes expiresAt as that instant plus the ttl. The random secret and its
hash come from external collaborators and are passed in. -/
def createTransientToken (userId : Nat) (expiresIn : Nat) (t1 : Nat)
    (hash : List Nat) : Nat × Nat × List Nat :=
  (userId, t1 + expiresIn, hash)

/-- EmailTokensProvider.create: builds the transient token at clock instant
t1, then builds the database row with a second clock read t2 for
created_at; expires_at is the transient expiry. The id is assigned by the
store. -/
def providerCreateRow (userId : Nat) (email : List Nat) (expiresIn : Nat)
    (hash : List Nat) (idAssigned : List Nat) (t1 t2 : Nat) : EmailTokenRow :=
  let transient := createTransientToken userId expiresIn t1 hash
  { id := idAssigned
    tokenable_id := transient.1
    email := email
    hash := transient.2.2
    created_at := t2
    expires_at := transient.2.1 }

/-- Provider deleteAll: removes every row of the given owner. -/
def deleteAllRows (rows : List EmailTokenRow) (uid : Nat) : List EmailTokenRow :=
  rows.filter (fun r => !(r.tokenable_id == uid))

/-- Provider delete: removes the row with the given id scoped to the
owner. -/
def deleteRowById (rows : List EmailTokenRow) (uid : Nat) (idv : List Nat) :
    List EmailTokenRow :=
  rows.filter (fun r => !(r.id == idv && r.tokenable_id == uid))

/-! Section: record level model of the mixins -/

/-- An owner row with the columns the mixins manage. -/
structure MUser where
  id : Nat
  email : String
  unverifiedEmail : Option String
  password : String
deriving DecidableEq

/-- An email verification token row, at the record level. -/
structure MToken where
  tokenableId : Nat
  email : String
  createdAt : Nat
deriving DecidableEq

/-- A password reset token row, at the record level. -/
structure MPToken where
  tokenableId : Nat
  createdAt : Nat
deriving DecidableEq

/-- The error raised by createEmailVerificationToken when unverifiedEmail
is missing (RuntimeException in the source). -/
inductive TokenCreationError where
  | runtimeException
deriving DecidableEq

/-- JS truthiness of the nullable unverifiedEmail column: null and the
empty string are falsy. -/
def isSet : Option String → Bool
  | none => false
  | some s => if s = "" then false else true

/-- hasEmailChanged from the withEmailManagement mixin: compare against
unverifiedEmail when it is truthy, against email otherwise. -/
def hasEmailChanged (u : MUser) (newEmail : String) : Bool :=
  if isSet u.unverifiedEmail then decide (u.unverifiedEmail.getD "" ≠ newEmail)
  else decide (u.email ≠ newEmail)

/-- hasEmailReverted from the mixin: unverifiedEmail is truthy and the new
email equals the confirmed email. -/
def hasEmailReverted (u : MUser) (newEmail : String) : Bool :=
  isSet u.unverifiedEmail && decide (u.email = newEmail)

/-- withEmail from the mixin: also moves email when it strictly equals
unverifiedEmail, otherwise only unverifiedEmail changes. -/
def withEmail (u : MUser) (newEmail : String) : MUser :=
  if u.unverifiedEmail = some u.email then
    { u with email := newEmail, unverifiedEmail := some newEmail }
  else
    { u with unverifiedEmail := some newEmail }

/-- switchEmail from the mixin: promote the address and clear the pending
column. -/
def switchEmail (u : MUser) (newEmail : String) : MUser :=
  { u with email := newEmail, unverifiedEmail := none }

/-- Largest created_at among a list of email token rows, mirroring the
orderBy created_at desc / first query. -/
def maxCreated : List MToken → Option Nat
  | [] => none
  | t :: ts =>
      match maxCreated ts with
      | none => some t.createdAt
      | some m => some (max t.createdAt m)

/-- Largest created_at among a list of password token rows. -/
def maxCreatedP : List MPToken → Option Nat
  | [] => none
  | t :: ts =>
      match maxCreatedP ts with
      | none => some t.createdAt
      | some m => some (max t.createdAt m)

/-- Provider lastCreatedAt for email tokens: latest created_at among the
rows of the owner. -/
def lastCreatedAt (store : List MToken) (uid : Nat) : Option Nat :=
  maxCreated (store.filter (fun t => t.tokenableId == uid))

/-- Provider lastCreatedAt for password tokens. -/
def lastCreatedAtP (store : List MPToken) (uid : Nat) : Option Nat :=
  maxCreatedP (store.filter (fun t => t.tokenableId == uid))

/-- Provider deleteAll at the record level. -/
def deleteAllTokens (store : List MToken) (uid : Nat) : List MToken :=
  store.filter (fun t => !(t.tokenableId == uid))

/-- createEmailVerificationToken from the withEmailManagement mixin: throws
when unverifiedEmail is falsy; with throttling, refuses (null, no store
change) when a previous token exists whose created_at plus a fixed 60
second cooldown is beyond now; otherwise inserts a fresh token for the
pending address. -/
def createEmailVerificationToken (u : MUser) (store : List MToken)
    (shouldThrottle : Bool) (now : Nat) :
    Except TokenCreationError (Option MToken × List MToken) :=
  if isSet u.unverifiedEmail then
    let fresh : MToken :=
      { tokenableId := u.id, email := u.unverifiedEmail.getD "", createdAt := now }
    if shouldThrottle then
      match lastCreatedAt store u.id with
      | some last =>
          if now < last + 60 then Except.ok (none, store)
          else Except.ok (some fresh, store ++ [fresh])
      | none => Except.ok (some fresh, store ++ [fresh])
    else Except.ok (some fresh, store ++ [fresh])
  else Except.error TokenCreationError.runtimeException

/-- createPasswordResetToken from the withPasswordManagement mixin: same
throttling shape, but the cooldown is a per call argument defaulting to 60
seconds, and there is no unverifiedEmail precondition. -/
def createPasswordResetToken (u : MUser) (store : List MPToken)
    (shouldThrottle : Bool) (cooldown : Nat) (now : Nat) :
    Option MPToken × List MPToken :=
  let fresh : MPToken := { tokenableId := u.id, createdAt := now }
  if shouldThrottle then
    match lastCreatedAtP store u.id with
    | some last =>
        if now < last + cooldown then (none, store)
        else (some fresh, store ++ [fresh])
    | none => (some fresh, store ++ [fresh])
  else (some fresh, store ++ [fresh])

/-- The three outcomes of the email change reconciliation in
tests/helpers.ts. -/
inductive UpdateOutcome where
  | SKIPPED
  | REVERTED
  | ISSUED_TOKEN (token : Option MToken)
deriving DecidableEq

/-- updateUserEmail from tests/helpers.ts: skip when nothing changed,
revert a pending change back to the confirmed email, otherwise record the
new pending email, clear the old tokens and issue one fresh token without
throttling. -/
def updateUserEmail (u : MUser) (store : List MToken) (newEmail : String)
    (now : Nat) :
    Except TokenCreationError (UpdateOutcome × MUser × List MToken) :=
  if !(hasEmailChanged u newEmail) then
    Except.ok (UpdateOutcome.SKIPPED, u, store)
  else if hasEmailReverted u newEmail then
    Except.ok (UpdateOutcome.REVERTED,
      { u with email := newEmail, unverifiedEmail := none },
      deleteAllTokens store u.id)
  else
    let u2 := withEmail u newEmail
    let store2 := deleteAllTokens store u.id
    match createEmailVerificationToken u2 store2 false now with
    | Except.ok (tok, store3) =>
        Except.ok (UpdateOutcome.ISSUED_TOKEN tok, u2, store3)
    | Except.error e => Except.error e

/-- The single user facing message of E_INVALID_EMAIL_TOKEN. -/
def invalidEmailTokenMessage : String := "Invalid or expired email verification token"

/-- The single user facing message of E_INVALID_PASSWORD_TOKEN. -/
def invalidPasswordTokenMessage : String := "Invalid or expired password reset token"

/-- The query for another owner holding the candidate email as confirmed
email. -/
def otherUserWithSameEmail (users : List MUser) (t : MToken) : Bool :=
  users.any (fun v => v.email == t.email && !(v.id == t.tokenableId))

/-- The query locating the owner of the token whose unverifiedEmail still
equals the token email. -/
def findTokenOwner (users : List MUser) (t : MToken) : Option MUser :=
  users.find? (fun v => v.id == t.tokenableId && v.unverifiedEmail == some t.email)

/-- verifyEmail from the withEmailManagement mixin. The token provider
verification result is passed in (its byte level model is providerVerify
above); every failure raises the one invalid token message. -/
def verifyEmail (users : List MUser) (tokenResult : Option MToken) :
    Except String (List MUser) :=
  match tokenResult with
  | none => Except.error invalidEmailTokenMessage
  | some t =>
      if otherUserWithSameEmail users t then Except.error invalidEmailTokenMessage
      else
        match findTokenOwner users t with
        | none => Except.error invalidEmailTokenMessage
        | some w =>
            Except.ok (users.map (fun v => if v.id == w.id then switchEmail v t.email else v))

/-- The owner lookup done inside the resetPassword transaction. -/
def findPasswordOwner (users : List MUser) (t : MPToken) : Option MUser :=
  users.find? (fun v => v.id == t.tokenableId)

/-- resetPassword from the withPasswordManagement mixin: verify, look the
owner up under the transaction, set the new password; both failure paths
raise the invalid token error and the transaction leaves no partial state
(the error result carries no mutated rows). -/
def resetPassword (users : List MUser) (tokenResult : Option MPToken)
    (newPassword : String) : Except String (List MUser) :=
  match tokenResult with
  | none => Except.error invalidPasswordTokenMessage
  | some t =>
      match findPasswordOwner users t with
      | none => Except.error invalidPasswordTokenMessage
      | some w =>
          Except.ok (users.map (fun v =>
            if v.id == w.id then { v with password := newPassword } else v))

/-! Section: claim side definitions, written from the spec wording, for the
claims that compare the code with the spec -/

/-- The effective pending address of the spec: unverifiedEmail when set,
else the confirmed email. -/
def effectivePending (u : MUser) : String :=
  if isSet u.unverifiedEmail then u.unverifiedEmail.getD "" else u.email

/-- Claim side throttling rule: refuse iff a last issuance time exists and
lastIssuedAt plus the caller chosen cooldown is beyond now. -/
def throttleRefusalSpec (lastIssuedAt : Option Nat) (cooldown now : Nat) : Bool :=
  match lastIssuedAt with
  | some l => decide (now < l + cooldown)
  | none => false

/-- Claim side decode failure conditions, written from the spec wording:
not a string, empty, no separator, an empty component on either side of
the first dot, or a segment that fails base64url decoding. -/
def decodeFailsSpec (v : JsInput) : Bool :=
  match v with
  | JsInput.nonString => true
  | JsInput.str cs =>
      cs.isEmpty ||
      ((splitDot cs).headD []).isEmpty ||
      ((splitDot cs).tail).isEmpty ||
      (joinDot ((splitDot cs).tail)).isEmpty ||
      (decodeB64 ((splitDot cs).headD [])).isNone ||
      (decodeB64 (joinDot ((splitDot cs).tail))).isNone


theorem b64index_b64char (s : Nat) (h : s < 64) : b64index (b64char s) = some s := by
  have H : ∀ t, t < 64 → b64index (b64char t) = some t := by decide
  exact H s h

theorem b64char_ne_dot (s : Nat) : b64char s ≠ 46 := by
  unfold b64char
  split_ifs <;> omega

theorem dot_ne_b64char (s : Nat) : 46 ≠ b64char s :=
  fun h => b64char_ne_dot s h.symm

theorem dot_not_mem_encodeB64 (bs : List Nat) : 46 ∉ encodeB64 bs := by
  induction bs using encodeB64.induct <;>
    simp_all [encodeB64, b64char_ne_dot, dot_ne_b64char]


theorem decodeB64_encodeB64 (bs : List Nat) (h : ∀ b ∈ bs, b < 256) :
    decodeB64 (encodeB64 bs) = some bs := by
  induction bs using encodeB64.induct with
  | case1 => rfl
  | case2 a =>
      have ha : a < 256 := h a (by simp)
      have e1 : b64index (b64char (a / 4)) = some (a / 4) := b64index_b64char _ (by omega)
      have e2 : b64index (b64char (a % 4 * 16)) = some (a % 4 * 16) :=
        b64index_b64char _ (by omega)
      simp only [encodeB64, decodeB64, b64indices, e1, e2, Option.some_bind]
      simp only [regroup]
      rw [if_pos (by omega : a % 4 * 16 % 16 = 0)]
      have hx : a / 4 * 4 + a % 4 * 16 / 16 = a := by omega
      rw [hx]
  | case3 a b =>
      have ha : a < 256 := h a (by simp)
      have hb : b < 256 := h b (by simp)
      have e1 : b64index (b64char (a / 4)) = some (a / 4) := b64index_b64char _ (by omega)
      have e2 : b64index (b64char (a % 4 * 16 + b / 16)) = some (a % 4 * 16 + b / 16) :=
        b64index_b64char _ (by omega)
      have e3 : b64index (b64char (b % 16 * 4)) = some (b % 16 * 4) :=
        b64index_b64char _ (by omega)
      simp only [encodeB64, decodeB64, b64indices, e1, e2, e3, Option.some_bind]
      simp only [regroup]
      rw [if_pos (by omega : b % 16 * 4 % 4 = 0)]
      have hx : a / 4 * 4 + (a % 4 * 16 + b / 16) / 16 = a := by omega
      have hy : (a % 4 * 16 + b / 16) % 16 * 16 + b % 16 * 4 / 4 = b := by omega
      rw [hx, hy]
  | case4 a b c rest ih =>
      have ha : a < 256 := h a (by simp)
      have hb : b < 256 := h b (by simp)
      have hc : c < 256 := h c (by simp)
      have hrest : ∀ x ∈ rest, x < 256 := fun x hx => h x (by simp [hx])
      have ih2 := ih hrest
      have e1 : b64index (b64char (a / 4)) = some (a / 4) := b64index_b64char _ (by omega)
      have e2 : b64index (b64char (a % 4 * 16 + b / 16)) = some (a % 4 * 16 + b / 16) :=
        b64index_b64char _ (by omega)
      have e3 : b64index (b64char (b % 16 * 4 + c / 64)) = some (b % 16 * 4 + c / 64) :=
        b64index_b64char _ (by omega)
      have e4 : b64index (b64char (c % 64)) = some (c % 64) := b64index_b64char _ (by omega)
      rcases hbi : b64indices (encodeB64 rest) with _ | ss
      · rw [decodeB64, hbi] at ih2
        simp at ih2
      · rw [decodeB64, hbi, Option.some_bind] at ih2
        simp only [encodeB64, decodeB64, b64indices, e1, e2, e3, e4, hbi, Option.some_bind]
        simp only [regroup, ih2]
        have hx : a / 4 * 4 + (a % 4 * 16 + b / 16) / 16 = a := by omega
        have hy : (a % 4 * 16 + b / 16) % 16 * 16 + (b % 16 * 4 + c / 64) / 4 = b := by omega
        have hz : (b % 16 * 4 + c / 64) % 4 * 64 + c % 64 = c := by omega
        rw [hx, hy, hz]


theorem splitDot_ne_nil (cs : List Nat) : splitDot cs ≠ [] := by
  cases cs with
  | nil => simp [splitDot]
  | cons c rest =>
      simp only [splitDot]
      split
      · simp
      · rcases h : splitDot rest with _ | ⟨p, ps⟩ <;> simp

theorem splitDot_no_dot (cs : List Nat) (h : 46 ∉ cs) : splitDot cs = [cs] := by
  induction cs with
  | nil => rfl
  | cons c rest ih =>
      have hc : c ≠ 46 := by
        intro hh; exact h (by simp [hh])
      have hr : 46 ∉ rest := fun hm => h (by simp [hm])
      simp only [splitDot, if_neg hc, ih hr]

theorem splitDot_append (xs ys : List Nat) (hx : 46 ∉ xs) :
    splitDot (xs ++ 46 :: ys) = xs :: splitDot ys := by
  induction xs with
  | nil => simp [splitDot]
  | cons c rest ih =>
      have hc : c ≠ 46 := by
        intro hh; exact hx (by simp [hh])
      have hr : 46 ∉ rest := fun hm => hx (by simp [hm])
      simp only [List.cons_append, splitDot, if_neg hc]
      rw [show rest.append (46 :: ys) = rest ++ 46 :: ys from rfl, ih hr]

theorem encodeB64_ne_nil (bs : List Nat) (h : bs ≠ []) : encodeB64 bs ≠ [] := by
  rcases bs with _ | ⟨a, _ | ⟨b, _ | ⟨c, rest⟩⟩⟩ <;> simp [encodeB64] at h ⊢

/-- C2: decoding the public value built from a valid identifier and secret
returns exactly the original pair. -/
theorem decode_encodePublicValue (i s : List Nat) (hi : i ≠ []) (hs : s ≠ [])
    (hib : ∀ b ∈ i, b < 256) (hsb : ∀ b ∈ s, b < 256) :
    decode (JsInput.str (encodePublicValue i s)) = some ⟨i, s⟩ := by
  have hcs : encodeB64 i ++ 46 :: encodeB64 s ≠ [] := by simp
  have hsplit : splitDot (encodeB64 i ++ 46 :: encodeB64 s) =
      encodeB64 i :: [encodeB64 s] := by
    rw [splitDot_append _ _ (dot_not_mem_encodeB64 i),
      splitDot_no_dot _ (dot_not_mem_encodeB64 s)]
  have hid : ¬(encodeB64 i = [] ∨ ([encodeB64 s] : List (List Nat)) = []) := by
    simp [encodeB64_ne_nil i hi]
  simp only [decode, encodePublicValue, if_neg hcs, hsplit, if_neg hid, joinDot,
    decodeB64_encodeB64 i hib, decodeB64_encodeB64 s hsb]
  rw [if_neg (by simp [hi, hs])]

theorem decode_encode_witness :
    decode (JsInput.str (encodePublicValue [98, 97, 114] [98, 97, 122])) =
      some ⟨[98, 97, 114], [98, 97, 122]⟩ :=
  decode_encodePublicValue [98, 97, 114] [98, 97, 122] (by decide) (by decide)
    (by decide) (by decide)


theorem b64indices_some_ne_nil (cs : List Nat) (h : cs ≠ []) (ss : List Nat)
    (hs : b64indices cs = some ss) : ss ≠ [] := by
  rcases cs with _ | ⟨c, rest⟩
  · exact absurd rfl h
  · simp only [b64indices] at hs
    rcases hbc : b64index c with _ | s <;> rcases hbr : b64indices rest with _ | ts <;>
      rw [hbc, hbr] at hs <;> simp_all
    exact fun hh => by simp [hh] at hs

theorem regroup_some_ne_nil (ss : List Nat) (h : ss ≠ []) (bs : List Nat)
    (hb : regroup ss = some bs) : bs ≠ [] := by
  rcases ss with _ | ⟨a, _ | ⟨b, _ | ⟨c, _ | ⟨d, tl⟩⟩⟩⟩
  · exact absurd rfl h
  · simp [regroup] at hb
  · simp only [regroup] at hb
    split at hb
    · simp only [Option.some.injEq] at hb
      exact fun hh => by simp [hh] at hb
    · simp at hb
  · simp only [regroup] at hb
    split at hb
    · simp only [Option.some.injEq] at hb
      exact fun hh => by simp [hh] at hb
    · simp at hb
  · simp only [regroup] at hb
    rcases hreg : regroup tl with _ | xs <;> rw [hreg] at hb
    · simp at hb
    · simp only [Option.some.injEq] at hb
      exact fun hh => by simp [hh] at hb

theorem decodeB64_some_nil (cs : List Nat) (l : List Nat)
    (h : decodeB64 cs = some l) (hl : l = []) : cs = [] := by
  by_contra hcs
  rw [decodeB64] at h
  rcases hbi : b64indices cs with _ | ss
  · rw [hbi] at h; simp at h
  · rw [hbi, Option.some_bind] at h
    exact regroup_some_ne_nil ss (b64indices_some_ne_nil cs hcs ss hbi) l h hl

/-- C3: decode returns the invalid result exactly under the failure
conditions listed by the spec. -/
theorem decode_none_iff (v : JsInput) :
    decode v = none ↔ decodeFailsSpec v = true := by
  cases v with
  | nonString => simp [decode, decodeFailsSpec]
  | str cs =>
      by_cases hcs : cs = []
      · subst hcs
        simp [decode, decodeFailsSpec]
      · rcases hsd : splitDot cs with _ | ⟨idv, tv⟩
        · exact absurd hsd (splitDot_ne_nil cs)
        · simp only [decode, decodeFailsSpec, hsd, if_neg hcs, List.isEmpty_iff,
            List.headD_cons, List.tail_cons, hcs, Bool.false_or]
          by_cases hid : idv = []
          · subst hid
            simp [decodeB64, b64indices, regroup, hcs]
          · by_cases htv : tv = []
            · subst htv
              simp [joinDot, decodeB64, b64indices, regroup, hcs, hid]
            · rw [if_neg (by simp [hid, htv])]
              rcases hdi : decodeB64 idv with _ | di
              · simp [hid, htv, hdi, hcs]
              · rcases hds : decodeB64 (joinDot tv) with _ | ds
                · simp [hid, htv, hdi, hds, hcs]
                · have hdine : di ≠ [] := fun hh =>
                    hid (decodeB64_some_nil idv di hdi hh)
                  by_cases hjtv : joinDot tv = []
                  · have : ds = [] := by
                      rw [hjtv] at hds
                      simpa [decodeB64, b64indices, regroup] using hds.symm
                    simp [hid, htv, hdi, hds, hjtv, this, hdine, hcs]
                  · have hdsne : ds ≠ [] := fun hh =>
                      hjtv (decodeB64_some_nil (joinDot tv) ds hds hh)
                    simp [hid, htv, hdi, hds, hjtv, hdine, hdsne, hcs]


/-- C1 (amended): the provider returns a token record exactly when
decoding succeeds, a row with the decoded identifier exists, the
recomputed hash of the decoded secret equals the stored digest, and the
expiry check passes; the expiry check of the code is expiresAt >= now, not
the strict expiresAt > now of the claim. All failures collapse to the one
null result. -/
theorem providerVerify_some_iff (hashFn : List Nat → List Nat)
    (rows : List EmailTokenRow) (now : Nat) (v : JsInput) (row : EmailTokenRow) :
    providerVerify hashFn rows now v = some row ↔
      ∃ d, decode v = some d ∧ findRowById rows d.identifier = some row ∧
        hashFn d.secret = row.hash ∧ now ≤ row.expires_at := by
  constructor
  · intro h
    rcases hd : decode v with _ | d
    · simp [providerVerify, hd] at h
    · rcases hf : findRowById rows d.identifier with _ | r
      · simp [providerVerify, hd, hf] at h
      · by_cases hh : tokenHashVerify hashFn r d.secret
        · by_cases he : tokenIsExpired r now
          · simp [providerVerify, hd, hf, hh, he] at h
          · have hr : r = row := by
              simpa [providerVerify, hd, hf, hh, he] using h
            subst hr
            refine ⟨d, rfl, hf, ?_, ?_⟩
            · simpa [tokenHashVerify] using hh
            · simpa [tokenIsExpired, Nat.not_lt] using he
        · simp [providerVerify, hd, hf, hh] at h
  · rintro ⟨d, hd, hf, hh, he⟩
    have h1 : tokenHashVerify hashFn row d.secret = true := by
      simp [tokenHashVerify, hh]
    have h2 : tokenIsExpired row now = false := by
      simp [tokenIsExpired, Nat.not_lt, he]
    simp [providerVerify, hd, hf, h1, h2]

/-- C1 counterexample: a stored row whose expiry equals the current
instant is returned by verify even though the strict comparison
expiresAt > now of the claim fails. -/
theorem providerVerify_boundary_counterexample :
    providerVerify (fun bs => bs)
        [{ id := [49], tokenable_id := 1, email := [], hash := [97],
           created_at := 0, expires_at := 5 }] 5
        (JsInput.str (encodePublicValue [49] [97])) =
      some { id := [49], tokenable_id := 1, email := [], hash := [97],
             created_at := 0, expires_at := 5 } ∧
    ¬(5 < (5 : Nat)) := by
  constructor
  · decide
  · omega


/-- C7 (amended): the stored expiry equals the clock instant of the
transient token (t1) plus the ttl in effect; created_at is a second, later
clock read (t2), so expiresAt = createdAt + ttl holds exactly when the two
reads coincide; rows are never mutated afterwards, only deleted, and the
delete operations keep every surviving row identical. -/
theorem providerCreateRow_timestamps (userId expiresIn t1 t2 : Nat)
    (email hash idA : List Nat) (_hclock : t1 ≤ t2) :
    (providerCreateRow userId email expiresIn hash idA t1 t2).expires_at = t1 + expiresIn ∧
    (providerCreateRow userId email expiresIn hash idA t1 t2).created_at = t2 ∧
    (t1 = t2 →
      (providerCreateRow userId email expiresIn hash idA t1 t2).expires_at =
        (providerCreateRow userId email expiresIn hash idA t1 t2).created_at + expiresIn) ∧
    (∀ rows uid r, r ∈ deleteAllRows rows uid → r ∈ rows) ∧
    (∀ rows uid idv r, r ∈ deleteRowById rows uid idv → r ∈ rows) := by
  refine ⟨rfl, rfl, ?_, ?_, ?_⟩
  · intro ht
    simp [providerCreateRow, createTransientToken, ht]
  · intro rows uid r hr
    exact List.mem_of_mem_filter hr
  · intro rows uid idv r hr
    exact List.mem_of_mem_filter hr

theorem providerCreateRow_timestamps_witness :
    (providerCreateRow 1 [] 600 [7] [49] 5 5).expires_at =
      (providerCreateRow 1 [] 600 [7] [49] 5 5).created_at + 600 :=
  (providerCreateRow_timestamps 1 600 5 5 [] [7] [49] (by decide)).2.2.1 rfl

/-- C7 counterexample: when the clock advances between the two reads
inside create (transient token at 0, row insertion at 1) the stored
expiry is strictly less than created_at + ttl. -/
theorem providerCreateRow_clock_counterexample :
    (providerCreateRow 1 [] 600 [7] [49] 0 1).expires_at ≠
      (providerCreateRow 1 [] 600 [7] [49] 0 1).created_at + 600 := by
  decide

/-- C10: with a missing unverifiedEmail the mixin raises the runtime
exception before any throttling or store access, for both throttled and
non throttled calls. -/
theorem createEmailVerificationToken_unverified_none (u : MUser)
    (store : List MToken) (shouldThrottle : Bool) (now : Nat)
    (h : u.unverifiedEmail = none) :
    createEmailVerificationToken u store shouldThrottle now =
      Except.error TokenCreationError.runtimeException := by
  simp [createEmailVerificationToken, isSet, h]

theorem createEmailVerificationToken_unverified_none_witness :
    createEmailVerificationToken ⟨1, "a@x.com", none, "pw"⟩ [] true 0 =
      Except.error TokenCreationError.runtimeException :=
  createEmailVerificationToken_unverified_none ⟨1, "a@x.com", none, "pw"⟩ [] true 0 rfl

/-- C6 (amended): a throttled issuance is refused, returning null with the
store untouched, exactly when a last issuance time exists and it plus the
cooldown is beyond now; the cooldown is the fixed 60 seconds for email
verification tokens, and the caller chosen per call value for password
reset tokens. -/
theorem throttle_refusal_iff (u : MUser) (estore : List MToken)
    (pstore : List MPToken) (cooldown now : Nat)
    (hset : isSet u.unverifiedEmail = true) :
    (createEmailVerificationToken u estore true now = Except.ok (none, estore) ↔
      throttleRefusalSpec (lastCreatedAt estore u.id) 60 now = true) ∧
    ((createPasswordResetToken u pstore true cooldown now).1 = none ↔
      throttleRefusalSpec (lastCreatedAtP pstore u.id) cooldown now = true) ∧
    ((createPasswordResetToken u pstore true cooldown now).1 = none →
      (createPasswordResetToken u pstore true cooldown now).2 = pstore) := by
  refine ⟨?_, ?_, ?_⟩
  · rcases hl : lastCreatedAt estore u.id with _ | last
    · simp [createEmailVerificationToken, hset, hl, throttleRefusalSpec]
    · by_cases hc : now < last + 60
      · simp [createEmailVerificationToken, hset, hl, hc, throttleRefusalSpec]
      · simp [createEmailVerificationToken, hset, hl, hc, throttleRefusalSpec]
  · rcases hl : lastCreatedAtP pstore u.id with _ | last
    · simp [createPasswordResetToken, hl, throttleRefusalSpec]
    · by_cases hc : now < last + cooldown
      · simp [createPasswordResetToken, hl, hc, throttleRefusalSpec]
      · simp [createPasswordResetToken, hl, hc, throttleRefusalSpec]
  · intro hres
    rcases hl : lastCreatedAtP pstore u.id with _ | last
    · simp [createPasswordResetToken, hl] at hres
    · by_cases hc : now < last + cooldown
      · simp [createPasswordResetToken, hl, hc]
      · simp [createPasswordResetToken, hl, hc] at hres

theorem throttle_refusal_iff_witness :
    createEmailVerificationToken ⟨1, "a@x.com", some "b@y.com", "pw"⟩
        [⟨1, "b@y.com", 0⟩] true 30 =
      Except.ok (none, [⟨1, "b@y.com", 0⟩]) :=
  (throttle_refusal_iff ⟨1, "a@x.com", some "b@y.com", "pw"⟩
      [⟨1, "b@y.com", 0⟩] [] 60 30 (by decide)).1.mpr (by decide)

/-- C6 counterexample: within the 60 second window an email verification
issuance is refused even though the claim side rule with a caller chosen
10 second cooldown says it must not be; the email path has no cooldown
argument and always uses 60 seconds. -/
theorem throttle_override_counterexample :
    createEmailVerificationToken ⟨1, "a@x.com", some "b@y.com", "pw"⟩
        [⟨1, "b@y.com", 0⟩] true 30 =
      Except.ok (none, [⟨1, "b@y.com", 0⟩]) ∧
    throttleRefusalSpec (lastCreatedAt [⟨1, "b@y.com", 0⟩] 1) 10 30 = false := by
  constructor
  · rfl
  · decide


theorem hasEmailChanged_eq (u : MUser) (newEmail : String) :
    hasEmailChanged u newEmail = decide (effectivePending u ≠ newEmail) := by
  by_cases h : isSet u.unverifiedEmail <;>
    simp [hasEmailChanged, effectivePending, h]

/-- C4 (amended): the reconciliation applies its three rules in order:
SKIPPED with nothing mutated when the effective pending address equals the
requested email; REVERTED, clearing unverifiedEmail and deleting the owner
tokens, when a pending address exists and the request equals the confirmed
email; otherwise, for a nonempty requested email, ISSUED_TOKEN with
unverifiedEmail set to the request (email moved too exactly when it
strictly equalled unverifiedEmail before), all owner tokens deleted and
one fresh non throttled token inserted for the new address. -/
theorem updateUserEmail_rules (u : MUser) (store : List MToken)
    (newEmail : String) (now : Nat) (hne : newEmail ≠ "") :
    (effectivePending u = newEmail →
      updateUserEmail u store newEmail now =
        Except.ok (UpdateOutcome.SKIPPED, u, store)) ∧
    (effectivePending u ≠ newEmail → isSet u.unverifiedEmail = true →
      u.email = newEmail →
      updateUserEmail u store newEmail now =
        Except.ok (UpdateOutcome.REVERTED, { u with unverifiedEmail := none },
          deleteAllTokens store u.id)) ∧
    (effectivePending u ≠ newEmail →
      ¬(isSet u.unverifiedEmail = true ∧ u.email = newEmail) →
      updateUserEmail u store newEmail now =
        Except.ok (UpdateOutcome.ISSUED_TOKEN (some ⟨u.id, newEmail, now⟩),
          { u with
              email := if u.unverifiedEmail = some u.email then newEmail else u.email,
              unverifiedEmail := some newEmail },
          deleteAllTokens store u.id ++ [⟨u.id, newEmail, now⟩])) := by
  refine ⟨?_, ?_, ?_⟩
  · intro heq
    simp [updateUserEmail, hasEmailChanged_eq, heq]
  · intro hch hset hrev
    rw [updateUserEmail]
    rw [if_neg (by simp [hasEmailChanged_eq, hch])]
    rw [if_pos (by simp [hasEmailReverted, hset, hrev])]
    subst hrev
    rfl
  · intro hch hnotrev
    rw [updateUserEmail]
    rw [if_neg (by simp [hasEmailChanged_eq, hch])]
    rw [if_neg (by
      simp only [hasEmailReverted, Bool.and_eq_true, decide_eq_true_eq]
      intro hcon
      exact hnotrev ⟨hcon.1, hcon.2⟩)]
    have hu2 : withEmail u newEmail =
        { u with
            email := if u.unverifiedEmail = some u.email then newEmail else u.email,
            unverifiedEmail := some newEmail } := by
      by_cases hw : u.unverifiedEmail = some u.email <;> simp [withEmail, hw]
    have hid2 : (withEmail u newEmail).id = u.id := by
      by_cases hw : u.unverifiedEmail = some u.email <;> simp [withEmail, hw]
    have hset2 : isSet (withEmail u newEmail).unverifiedEmail = true := by
      by_cases hw : u.unverifiedEmail = some u.email <;>
        simp [withEmail, hw, isSet, hne]
    have hun2 : (withEmail u newEmail).unverifiedEmail = some newEmail := by
      by_cases hw : u.unverifiedEmail = some u.email <;> simp [withEmail, hw]
    simp [createEmailVerificationToken, hu2, hun2, hid2, isSet, hne]

theorem updateUserEmail_rules_witness :
    updateUserEmail ⟨1, "a@x.com", some "a@x.com", "pw"⟩ [] "b@y.com" 7 =
      Except.ok (UpdateOutcome.ISSUED_TOKEN (some ⟨1, "b@y.com", 7⟩),
        ⟨1, "b@y.com", some "b@y.com", "pw"⟩, [⟨1, "b@y.com", 7⟩]) := by
  have h := (updateUserEmail_rules ⟨1, "a@x.com", some "a@x.com", "pw"⟩ []
    "b@y.com" 7 (by decide)).2.2 (by decide) (by decide)
  simpa [deleteAllTokens] using h

/-- C4 counterexample: requesting the empty string as new email for an
owner with no pending change raises the runtime exception from token
creation instead of returning the ISSUED_TOKEN outcome, although neither
the SKIPPED nor the REVERTED rule applies. -/
theorem updateUserEmail_empty_counterexample :
    updateUserEmail ⟨1, "a@x.com", none, "pw"⟩ [] "" 0 =
      Except.error TokenCreationError.runtimeException ∧
    hasEmailChanged ⟨1, "a@x.com", none, "pw"⟩ "" = true ∧
    hasEmailReverted ⟨1, "a@x.com", none, "pw"⟩ "" = false := by
  refine ⟨rfl, by decide, by decide⟩


/-- C5: verifyEmail rejects with the one generic invalid token error when
the provider verification failed, when another owner already holds the
token email as confirmed email, or when no owner matches the token owner
reference with that email still pending; on success the pending address is
promoted to the confirmed one and the pending column is cleared. -/
theorem verifyEmail_rules (users : List MUser) (tokenResult : Option MToken) :
    (∀ msg, verifyEmail users tokenResult = Except.error msg →
      msg = invalidEmailTokenMessage) ∧
    ((∃ msg, verifyEmail users tokenResult = Except.error msg) ↔
      (tokenResult = none ∨
        ∃ t, tokenResult = some t ∧
          (otherUserWithSameEmail users t = true ∨ findTokenOwner users t = none))) ∧
    (∀ t w, tokenResult = some t → findTokenOwner users t = some w →
      otherUserWithSameEmail users t = false →
      verifyEmail users tokenResult =
        Except.ok (users.map (fun v => if v.id == w.id then switchEmail v t.email else v)) ∧
      w.unverifiedEmail = some t.email ∧
      (switchEmail w t.email).email = t.email ∧
      (switchEmail w t.email).unverifiedEmail = none) := by
  refine ⟨?_, ?_, ?_⟩
  · intro msg h
    rcases ht : tokenResult with _ | t
    · rw [ht] at h
      simp [verifyEmail] at h
      exact h.symm
    · rw [ht] at h
      by_cases ho : otherUserWithSameEmail users t
      · simp [verifyEmail, ho] at h
        exact h.symm
      · rcases hf : findTokenOwner users t with _ | w
        · simp [verifyEmail, ho, hf] at h
          exact h.symm
        · simp [verifyEmail, ho, hf] at h
  · constructor
    · rintro ⟨msg, h⟩
      rcases ht : tokenResult with _ | t
      · exact Or.inl rfl
      · rw [ht] at h
        by_cases ho : otherUserWithSameEmail users t
        · exact Or.inr ⟨t, rfl, Or.inl ho⟩
        · rcases hf : findTokenOwner users t with _ | w
          · exact Or.inr ⟨t, rfl, Or.inr hf⟩
          · simp [verifyEmail, ho, hf] at h
    · rintro (ht | ⟨t, ht, ho | hf⟩)
      · exact ⟨invalidEmailTokenMessage, by simp [ht, verifyEmail]⟩
      · exact ⟨invalidEmailTokenMessage, by simp [ht, verifyEmail, ho]⟩
      · refine ⟨invalidEmailTokenMessage, ?_⟩
        by_cases ho : otherUserWithSameEmail users t
        · simp [ht, verifyEmail, ho]
        · simp [ht, verifyEmail, ho, hf]
  · intro t w ht hf ho
    have hw := List.find?_some hf
    simp only [Bool.and_eq_true, beq_iff_eq] at hw
    refine ⟨?_, hw.2, rfl, rfl⟩
    simp [ht, verifyEmail, ho, hf]

theorem verifyEmail_rules_witness :
    verifyEmail [⟨1, "a@x.com", some "b@y.com", "pw"⟩]
        (some ⟨1, "b@y.com", 0⟩) =
      Except.ok [⟨1, "b@y.com", none, "pw"⟩] := by
  have h := (verifyEmail_rules [⟨1, "a@x.com", some "b@y.com", "pw"⟩]
      (some ⟨1, "b@y.com", 0⟩)).2.2 ⟨1, "b@y.com", 0⟩
      ⟨1, "a@x.com", some "b@y.com", "pw"⟩ rfl (by decide) (by decide)
  simpa [switchEmail] using h.1

/-- C8: resetPassword raises the one invalid token error when verification
failed or the owner row no longer exists, carrying no partial mutation,
and on success only the owner password changes, to the new value. -/
theorem resetPassword_rules (users : List MUser) (tokenResult : Option MPToken)
    (newPassword : String) :
    (∀ msg, resetPassword users tokenResult newPassword = Except.error msg →
      msg = invalidPasswordTokenMessage) ∧
    ((∃ msg, resetPassword users tokenResult newPassword = Except.error msg) ↔
      (tokenResult = none ∨
        ∃ t, tokenResult = some t ∧ findPasswordOwner users t = none)) ∧
    (∀ t w, tokenResult = some t → findPasswordOwner users t = some w →
      resetPassword users tokenResult newPassword =
        Except.ok (users.map (fun v =>
          if v.id == w.id then { v with password := newPassword } else v)) ∧
      ∀ v ∈ users, v.id ≠ w.id →
        (if v.id == w.id then { v with password := newPassword } else v) = v) := by
  refine ⟨?_, ?_, ?_⟩
  · intro msg h
    rcases ht : tokenResult with _ | t
    · rw [ht] at h
      simp [resetPassword] at h
      exact h.symm
    · rw [ht] at h
      rcases hf : findPasswordOwner users t with _ | w
      · simp [resetPassword, hf] at h
        exact h.symm
      · simp [resetPassword, hf] at h
  · constructor
    · rintro ⟨msg, h⟩
      rcases ht : tokenResult with _ | t
      · exact Or.inl rfl
      · rw [ht] at h
        rcases hf : findPasswordOwner users t with _ | w
        · exact Or.inr ⟨t, rfl, hf⟩
        · simp [resetPassword, hf] at h
    · rintro (ht | ⟨t, ht, hf⟩)
      · exact ⟨invalidPasswordTokenMessage, by simp [ht, resetPassword]⟩
      · exact ⟨invalidPasswordTokenMessage, by simp [ht, resetPassword, hf]⟩
  · intro t w ht hf
    refine ⟨by simp [ht, resetPassword, hf], ?_⟩
    intro v hv hne
    simp [hne]

theorem providerVerify_some_iff_witness :
    providerVerify (fun bs => bs)
        [{ id := [49], tokenable_id := 1, email := [], hash := [97],
           created_at := 0, expires_at := 9 }] 3
        (JsInput.str (encodePublicValue [49] [97])) =
      some { id := [49], tokenable_id := 1, email := [], hash := [97],
             created_at := 0, expires_at := 9 } :=
  (providerVerify_some_iff (fun bs => bs)
      [{ id := [49], tokenable_id := 1, email := [], hash := [97],
         created_at := 0, expires_at := 9 }] 3
      (JsInput.str (encodePublicValue [49] [97]))
      { id := [49], tokenable_id := 1, email := [], hash := [97],
        created_at := 0, expires_at := 9 }).mpr
    ⟨⟨[49], [97]⟩, by decide, by decide, by decide, by decide⟩

theorem decode_none_iff_witness :
    decode (JsInput.str [102, 111, 111]) = none :=
  (decode_none_iff (JsInput.str [102, 111, 111])).mpr (by decide)

theorem resetPassword_rules_witness :
    resetPassword [⟨1, "a@x.com", none, "old"⟩] (some ⟨1, 0⟩) "new" =
      Except.ok [⟨1, "a@x.com", none, "new"⟩] := by
  have h := (resetPassword_rules [⟨1, "a@x.com", none, "old"⟩]
      (some ⟨1, 0⟩) "new").2.2 ⟨1, 0⟩ ⟨1, "a@x.com", none, "old"⟩ rfl (by decide)
  simpa using h.1

end Persona
